import Mathlib

/-!
# rpctest01: the MessagePack RPC codec over a length-prefixed frame

A shallow embedding of `client/client.go` and `server/server.go`.

* Bytes are `UInt8`; a `[]byte` is a `List Byte`; a nil slice is `none`.
* `io.ReadWriteCloser` is a record of functions over an explicit stream state
  (`Conn`).  A lawful reader returns `0 ≤ n ≤ len(p)`, a lawful writer returns a
  non-nil error whenever `n < len(p)`; both laws are fields of `Conn`, so every
  slice expression and every `make` of the source is in range.
* `for { ... }` loops may run for ever (a stream may hand out bytes without
  end); they take a `fuel` argument and yield `none` once it is used up.
* `panic` is an explicit outcome.
* `msgpack.Marshal` and `msgpack.Unmarshal` belong to an external library and
  are parameters of the codec methods.
* `int` has 64 bits, so `int(binary.BigEndian.Uint32(..))` is never negative.
-/

namespace Rpctest01

/-! ## Bytes, errors, streams -/

abbrev Byte := UInt8

/-- Go `error` values: the sentinel `io.EOF` (compared by identity in the
source) and every other error, known by the text of its `Error()` method. -/
inductive GoError where
  | EOF
  | msg (text : String)
  deriving DecidableEq, Repr

/-- The method `err.Error()`. -/
def GoError.Error : GoError → String
  | .EOF => "EOF"
  | .msg text => text

/-- The function `strings.Contains(s, substr)`. -/
def stringsContains (s substr : String) : Bool :=
  decide (substr.toList <:+: s.toList)

/-- Result of `n, err := conn.Read(p)`: `data` are the `n` bytes stored in
`p[0:n]`, `next` is the stream afterwards. -/
structure ReadOutcome (σ : Type) where
  data : List Byte
  err : Option GoError
  next : σ
  deriving DecidableEq

/-- Result of `n, err := conn.Write(p)`. -/
structure WriteOutcome (σ : Type) where
  n : Nat
  err : Option GoError
  next : σ
  deriving DecidableEq

/-- An `io.ReadWriteCloser` over stream states `σ`; `Read s size` is a `Read`
into a buffer of `size` bytes. -/
structure Conn (σ : Type) where
  Read : σ → Nat → ReadOutcome σ
  Write : σ → List Byte → WriteOutcome σ
  Read_le : ∀ s size, (Read s size).data.length ≤ size
  Write_le : ∀ s p, (Write s p).n ≤ p.length
  Write_full : ∀ s p, (Write s p).err = none → (Write s p).n = p.length

/-! ## encoding/binary -/

/-- The function `binary.BigEndian.PutUint32(b, v)` on a 4-byte `b`; `v` is a
`uint32`, `byte(..)` keeps the low 8 bits. -/
def PutUint32 (v : Nat) : List Byte :=
  [UInt8.ofNat (v >>> 24), UInt8.ofNat (v >>> 16), UInt8.ofNat (v >>> 8), UInt8.ofNat v]

/-- The function `binary.BigEndian.Uint32(b)`:
`uint32(b[3]) | uint32(b[2])<<8 | uint32(b[1])<<16 | uint32(b[0])<<24`.
The source calls it on exactly 4 bytes (`readLoop_broke_length`); an index out
of range reads as 0 here. -/
def Uint32 (b : List Byte) : Nat :=
  (b.getD 3 0).toNat ||| (b.getD 2 0).toNat <<< 8 ||| (b.getD 1 0).toNat <<< 16
    ||| (b.getD 0 0).toNat <<< 24

/-! ## readData (client.go 109-145, server.go 106-142; the two copies are identical) -/

def HeadSize : Nat := 4

/-- How one of the two `for` loops of `readData` ends: with `return` on a read
error, or with `break` once the buffer holds the wanted number of bytes. -/
inductive LoopExit (σ : Type) where
  | returned (err : GoError) (conn : σ)
  | broke (buf : List Byte) (conn : σ)
  deriving DecidableEq

/-- The accumulation loop of `readData`, written twice in the source (lines
113-125 for the header with `total = HeadSize`, lines 129-141 for the body
with `total = bodyLen`):

    for {
      readSize, err := conn.Read(data)            // len(data) = size
      if err != nil { returnError = err; return }
      buf.Write(data[0:readSize])
      if buf.Len() == total { break } else { data = make([]byte, total-readSize) }
    }

`total - readSize` is never negative since `readSize ≤ len(data) ≤ total`. -/
def readLoop {σ : Type} (c : Conn σ) (total : Nat) :
    Nat → σ → List Byte → Nat → Option (LoopExit σ)
  | 0, _, _, _ => none
  | fuel + 1, conn, buf, size =>
    let r := c.Read conn size
    match r.err with
    | some err => some (.returned err r.next)
    | none =>
      let buf1 := buf ++ r.data
      if buf1.length = total then some (.broke buf1 r.next)
      else readLoop c total fuel r.next buf1 (total - r.data.length)

/-- The named results `(data []byte, returnError error)` of `readData`, and the
stream after the call. -/
structure ReadDataResult (σ : Type) where
  data : Option (List Byte)
  returnError : Option GoError
  conn : σ
  deriving DecidableEq

/-- The function `readData(conn)`. -/
def readData {σ : Type} (c : Conn σ) (fuel : Nat) (conn : σ) : Option (ReadDataResult σ) :=
  match readLoop c HeadSize fuel conn [] HeadSize with
  | none => none
  | some (.returned err s1) => some ⟨none, some err, s1⟩
  | some (.broke headBuf s1) =>
    let bodyLen := Uint32 headBuf
    match readLoop c bodyLen fuel s1 [] bodyLen with
    | none => none
    | some (.returned err s2) => some ⟨none, some err, s2⟩
    | some (.broke bodyBuf s2) => some ⟨some bodyBuf, none, s2⟩

/-- Where one of the loops of `readData` stands after `n` iterations that went
round again: the stream, the buffer, and the size of the buffer of the next
`Read`.  It is `none` when one of these `n` iterations left the loop (its `Read`
failed, or it filled the buffer).  The `Read` made in this position is the
`n+1`-th `Read` of the loop. -/
def loopStateAfter {σ : Type} (c : Conn σ) (total : Nat) :
    Nat → σ → List Byte → Nat → Option (σ × List Byte × Nat)
  | 0, conn, buf, size => some (conn, buf, size)
  | n + 1, conn, buf, size =>
    let r := c.Read conn size
    match r.err with
    | some _ => none
    | none =>
      let buf1 := buf ++ r.data
      if buf1.length = total then none
      else loopStateAfter c total n r.next buf1 (total - r.data.length)

/-! ## Observing a stream -/

/-- One call on the stream, as seen from outside. -/
inductive Event where
  | read (size : Nat) (data : List Byte) (err : Option GoError)
  | write (p : List Byte) (n : Nat) (err : Option GoError)
  deriving DecidableEq

/-- The error a call returned. -/
def Event.err : Event → Option GoError
  | .read _ _ err => err
  | .write _ _ err => err

/-- The bytes a call took out of the stream. -/
def Event.received : Event → List Byte
  | .read _ data _ => data
  | .write _ _ _ => []

/-- The bytes a call put on the stream: the first `n` of the buffer. -/
def Event.sent : Event → List Byte
  | .read _ _ _ => []
  | .write p n _ => p.take n

/-- All bytes taken out of the stream by a sequence of calls. -/
def received (log : List Event) : List Byte := (log.map Event.received).flatten

/-- All bytes put on the stream by a sequence of calls. -/
def sent (log : List Event) : List Byte := (log.map Event.sent).flatten

/-- The same stream with a log of the calls made on it; the stream behaves as
before. -/
def recording {σ : Type} (c : Conn σ) : Conn (σ × List Event) where
  Read := fun s size =>
    let r := c.Read s.1 size
    ⟨r.data, r.err, (r.next, s.2 ++ [Event.read size r.data r.err])⟩
  Write := fun s p =>
    let w := c.Write s.1 p
    ⟨w.n, w.err, (w.next, s.2 ++ [Event.write p w.n w.err])⟩
  Read_le := fun s size => c.Read_le s.1 size
  Write_le := fun s p => c.Write_le s.1 p
  Write_full := fun s p => c.Write_full s.1 p

/-! ## A simulated stream -/

/-- What the stream holds for the coming `Read` calls: a chunk of bytes, handed
out in as many calls as the buffers need, or an error. -/
inductive ReadStep where
  | chunk (bytes : List Byte)
  | fail (err : GoError)
  deriving DecidableEq

/-- A simulated connection: the steps left for reading, and the fate of the
coming `Write` calls (`none`: the whole buffer is accepted; `some err`: nothing
is written and `err` is returned; every `Write` after the list is accepted). -/
structure Sim where
  reads : List ReadStep
  writes : List (Option GoError)
  deriving DecidableEq

/-- A `Read` on the simulated stream.  A `Read` into an empty buffer returns
`0, nil`, as on a `net.Conn`; at the end of the steps it returns `io.EOF`; each
call returns at most the buffer size and at most what is left of the chunk. -/
def Sim.Read : Sim → Nat → ReadOutcome Sim
  | s, 0 => ⟨[], none, s⟩
  | s, size + 1 =>
    match s.reads with
    | [] => ⟨[], some .EOF, s⟩
    | .fail err :: rest => ⟨[], some err, { s with reads := rest }⟩
    | .chunk b :: rest =>
      ⟨b.take (size + 1), none,
        { s with reads := if b.length ≤ size + 1 then rest else .chunk (b.drop (size + 1)) :: rest }⟩

/-- A `Write` on the simulated stream. -/
def Sim.Write (s : Sim) (p : List Byte) : WriteOutcome Sim :=
  match s.writes with
  | [] => ⟨p.length, none, s⟩
  | none :: rest => ⟨p.length, none, { s with writes := rest }⟩
  | some err :: rest => ⟨0, some err, { s with writes := rest }⟩

/-- The simulated connection as an `io.ReadWriteCloser`. -/
def simConn : Conn Sim where
  Read := Sim.Read
  Write := Sim.Write
  Read_le := by
    intro s size
    cases size with
    | zero => simp [Sim.Read]
    | succ k =>
      rcases h : s.reads with _ | ⟨step, rest⟩
      · simp [Sim.Read, h]
      · cases step <;> simp [Sim.Read, h, List.length_take]
  Write_le := by
    intro s p
    rcases h : s.writes with _ | ⟨w, rest⟩
    · simp [Sim.Write, h]
    · cases w <;> simp [Sim.Write, h]
  Write_full := by
    intro s p
    rcases h : s.writes with _ | ⟨w, rest⟩
    · simp [Sim.Write, h]
    · cases w <;> simp [Sim.Write, h]

/-! ## Dynamic values and package reflect -/

/-- The Go types of this development: the types a decoded MessagePack value can
have, and the empty interface `interface{}`. -/
inductive GoType where
  | bool
  | int64
  | uint64
  | string
  | bytes
  | emptyInterface
  deriving DecidableEq, Repr

/-- A non-nil dynamic value. -/
inductive GoValue where
  | bool (b : Bool)
  | int64 (i : Int)
  | uint64 (n : Nat)
  | string (s : String)
  | bytes (b : List Byte)
  deriving DecidableEq, Repr

/-- The dynamic type of a value (`reflect.TypeOf`). -/
def GoValue.typ : GoValue → GoType
  | .bool _ => .bool
  | .int64 _ => .int64
  | .uint64 _ => .uint64
  | .string _ => .string
  | .bytes _ => .bytes

/-- A value of type `interface{}`; `none` is the nil interface. -/
abbrev Iface := Option GoValue

/-- What the parameter `reply interface{}` (client) or `arg interface{}`
(server) holds.  `pointer elem cur` is a non-nil `*elem` whose variable holds
`cur` (for `elem = interface{}` an interface value, otherwise `some` value of
type `elem`). -/
inductive Dest where
  | nilInterface
  | nonPointer (v : GoValue)
  | nilPointer (elem : GoType)
  | pointer (elem : GoType) (cur : Iface)
  deriving DecidableEq, Repr

/-- Assignability of a value to a type, as `reflect.Value.Set` checks it: the
types are identical, or the target is `interface{}`, which every type
implements. -/
def assignable (elem : GoType) (v : GoValue) : Bool :=
  decide (v.typ = elem) || decide (elem = GoType.emptyInterface)

/-- A panic: `panic(err)` of the source, or a run-time panic raised inside
package reflect. -/
inductive Panic where
  | error (err : GoError)
  | reflect
  deriving DecidableEq, Repr

/-- How a codec method ends: it returns its `error` result, or it panics. -/
inductive Outcome where
  | returned (err : Option GoError)
  | panicked (p : Panic)
  deriving DecidableEq, Repr

/-- The expression `reflect.ValueOf(dst).Elem().Set(reflect.ValueOf(x))`:
`Elem` panics unless `dst` is a pointer, and yields the zero Value for a nil
pointer; `Set` panics on a zero Value on either side (`reflect.ValueOf(nil)` is
the zero Value) and when `x` is not assignable to the element type; otherwise
it stores `x`.  Yields the panic, if any, and `dst` afterwards. -/
def reflectElemSet (dst : Dest) (x : Iface) : Option Panic × Dest :=
  match dst with
  | .nilInterface => (some .reflect, dst)
  | .nonPointer _ => (some .reflect, dst)
  | .nilPointer _ => (some .reflect, dst)
  | .pointer elem cur =>
    match x with
    | none => (some .reflect, .pointer elem cur)
    | some v =>
      if assignable elem v then (none, .pointer elem (some v))
      else (some .reflect, .pointer elem cur)

/-! ## net/rpc headers and the envelopes -/

/-- The struct `rpc.Request` (`Seq` is a `uint64`). -/
structure Request where
  ServiceMethod : String
  Seq : Nat
  deriving DecidableEq, Repr

/-- The struct `rpc.Response`. -/
structure Response where
  ServiceMethod : String
  Seq : Nat
  Error : String
  deriving DecidableEq, Repr

/-- The struct `MsgpackReq`: an embedded `rpc.Request` and `Arg interface{}`. -/
structure MsgpackReq extends Request where
  Arg : Iface
  deriving DecidableEq, Repr

/-- The struct `MsgpackResp`: an embedded `rpc.Response` and `Reply interface{}`. -/
structure MsgpackResp extends Response where
  Reply : Iface
  deriving DecidableEq, Repr

/-! ## client/client.go -/

/-- The struct `MessagePackClientCodec`; `rwc` is the state of the stream. -/
structure MessagePackClientCodec (σ : Type) where
  rwc : σ
  resp : MsgpackResp
  closed : Bool
  deriving DecidableEq

namespace client

/-- The method `WriteRequest` (client.go 35-54).  The error of the first
`Write` is assigned to `err` and overwritten by the second. -/
def WriteRequest {σ : Type} (conn : Conn σ) (Marshal : MsgpackReq → Except GoError (List Byte))
    (c : MessagePackClientCodec σ) (r : Request) (arg : Iface) :
    Outcome × MessagePackClientCodec σ :=
  if c.closed then (.returned none, c)
  else
    match Marshal { toRequest := r, Arg := arg } with
    | .error err => (.panicked (.error err), c)
    | .ok reqData =>
      let head := PutUint32 (reqData.length % 2 ^ 32)
      let w1 := conn.Write c.rwc head
      let w2 := conn.Write w1.next reqData
      (.returned w2.err, { c with rwc := w2.next })

/-- The method `ReadResponseHeader` (client.go 56-86); yields the outcome, the
codec and `*r` afterwards. -/
def ReadResponseHeader {σ : Type} (conn : Conn σ)
    (Unmarshal : List Byte → Except GoError MsgpackResp) (fuel : Nat)
    (c : MessagePackClientCodec σ) (r : Response) :
    Option (Outcome × MessagePackClientCodec σ × Response) :=
  if c.closed then some (.returned none, c, r)
  else
    match readData conn fuel c.rwc with
    | none => none
    | some rd =>
      let c1 := { c with rwc := rd.conn }
      match rd.returnError with
      | some err =>
        if stringsContains err.Error "use of closed network connection" then
          some (.returned none, c1, r)
        else some (.panicked (.error err), c1, r)
      | none =>
        match Unmarshal (rd.data.getD []) with
        | .error err => some (.panicked (.error err), c1, r)
        | .ok response =>
          some (.returned none, { c1 with resp := response },
            { r with ServiceMethod := response.ServiceMethod, Seq := response.Seq })

/-- The method `ReadResponseBody` (client.go 88-99); yields the outcome and what
`reply` holds afterwards. -/
def ReadResponseBody {σ : Type} (c : MessagePackClientCodec σ) (reply : Dest) :
    Outcome × Dest :=
  if "" ≠ c.resp.Error then (.returned (some (.msg c.resp.Error)), reply)
  else if reply ≠ .nilInterface then
    match reflectElemSet reply c.resp.Reply with
    | (some p, d) => (.panicked p, d)
    | (none, d) => (.returned none, d)
  else (.returned none, reply)

end client

/-! ## server/server.go -/

/-- The struct `MessagePackServerCodec`. -/
structure MessagePackServerCodec (σ : Type) where
  rwc : σ
  req : MsgpackReq
  closed : Bool
  deriving DecidableEq

namespace server

/-- The method `WriteResponse` (server.go 36-55). -/
def WriteResponse {σ : Type} (conn : Conn σ) (Marshal : MsgpackResp → Except GoError (List Byte))
    (c : MessagePackServerCodec σ) (r : Response) (reply : Iface) :
    Outcome × MessagePackServerCodec σ :=
  if c.closed then (.returned none, c)
  else
    match Marshal { toResponse := r, Reply := reply } with
    | .error err => (.panicked (.error err), c)
    | .ok respData =>
      let head := PutUint32 (respData.length % 2 ^ 32)
      let w1 := conn.Write c.rwc head
      let w2 := conn.Write w1.next respData
      (.returned w2.err, { c with rwc := w2.next })

/-- The method `ReadRequestHeader` (server.go 57-89). -/
def ReadRequestHeader {σ : Type} (conn : Conn σ)
    (Unmarshal : List Byte → Except GoError MsgpackReq) (fuel : Nat)
    (c : MessagePackServerCodec σ) (r : Request) :
    Option (Outcome × MessagePackServerCodec σ × Request) :=
  if c.closed then some (.returned none, c, r)
  else
    match readData conn fuel c.rwc with
    | none => none
    | some rd =>
      let c1 := { c with rwc := rd.conn }
      match rd.returnError with
      | some err =>
        if err = .EOF then some (.returned (some err), c1, r)
        else if stringsContains err.Error "connection reset by peer" then
          some (.returned (some err), c1, r)
        else some (.panicked (.error err), c1, r)
      | none =>
        match Unmarshal (rd.data.getD []) with
        | .error err => some (.panicked (.error err), c1, r)
        | .ok request =>
          some (.returned none, { c1 with req := request },
            { r with ServiceMethod := request.ServiceMethod, Seq := request.Seq })

/-- The method `ReadRequestBody` (server.go 91-97). -/
def ReadRequestBody {σ : Type} (c : MessagePackServerCodec σ) (arg : Dest) :
    Outcome × Dest :=
  if arg ≠ .nilInterface then
    match reflectElemSet arg c.req.Arg with
    | (some p, d) => (.panicked p, d)
    | (none, d) => (.returned none, d)
  else (.returned none, arg)

end server

/-! ## Sample data -/

/-- A `msgpack.Marshal` that serializes every request to the same three bytes. -/
def sampleMarshalReq : MsgpackReq → Except GoError (List Byte) :=
  fun _ => .ok [0x93, 1, 2]

/-- A `msgpack.Marshal` that serializes every response to the same three bytes. -/
def sampleMarshalResp : MsgpackResp → Except GoError (List Byte) :=
  fun _ => .ok [0x93, 1, 2]

/-- A `msgpack.Unmarshal` for requests: one byte `b` decodes to the request
`Echo.Echo` number `b` with argument `"hi"`; anything else is malformed. -/
def sampleUnmarshalReq : List Byte → Except GoError MsgpackReq
  | [b] => .ok { ServiceMethod := "Echo.Echo", Seq := b.toNat, Arg := some (.string "hi") }
  | _ => .error (.msg "msgpack: invalid code")

/-- A `msgpack.Unmarshal` for responses, like `sampleUnmarshalReq`. -/
def sampleUnmarshalResp : List Byte → Except GoError MsgpackResp
  | [b] =>
    .ok { ServiceMethod := "Echo.Echo", Seq := b.toNat, Error := "", Reply := some (.string "hi") }
  | _ => .error (.msg "msgpack: invalid code")

/-- A zero `MsgpackReq`. -/
def zeroReq : MsgpackReq := { ServiceMethod := "", Seq := 0, Arg := none }

/-- A zero `MsgpackResp`. -/
def zeroResp : MsgpackResp := { ServiceMethod := "", Seq := 0, Error := "", Reply := none }

/-- A stream that delivers two bytes and then fails. -/
def brokenStream : Sim :=
  { reads := [.chunk [0, 0], .fail (.msg "read: connection reset by peer")], writes := [] }

/-- A stream that delivers the header `00 00 00 02`, one of the two payload
bytes, and then fails. -/
def brokenBodyStream : Sim :=
  { reads := [.chunk [0, 0, 0, 2], .chunk [9], .fail (.msg "read: connection reset by peer")],
    writes := [] }

/-- A stream whose `Read` fails with an error that is neither `io.EOF` nor a
connection reset. -/
def timeoutStream : Sim := { reads := [.fail (.msg "i/o timeout")], writes := [] }

/-- A stream whose `Read` fails because the connection was closed locally. -/
def closedStream : Sim :=
  { reads := [.fail (.msg "read tcp 127.0.0.1:4000->127.0.0.1:1234: use of closed network connection")],
    writes := [] }

/-- A stream on which the first `Write` fails and the later ones succeed. -/
def flakyStream : Sim := { reads := [], writes := [some (.msg "write: broken pipe")] }

/-- A stream that delivers the frame of the one-byte payload `07`: 3 header
bytes, then the last header byte together with the payload. -/
def oneFrameStream : Sim := { reads := [.chunk [0, 0, 0], .chunk [1], .chunk [7]], writes := [] }

/-! ## Lemmas: encoding/binary -/

theorem byte_toNat (n : Nat) : (UInt8.ofNat n).toNat = n % 256 := rfl

theorem or_shiftLeft (a b k : Nat) (h : b < 2 ^ k) : b ||| a <<< k = a * 2 ^ k + b := by
  rw [Nat.shiftLeft_eq, Nat.or_comm, Nat.mul_comm, ← Nat.mul_add_lt_is_or h]

theorem Uint32_eq (b0 b1 b2 b3 : Byte) :
    Uint32 [b0, b1, b2, b3]
      = b0.toNat * 2 ^ 24 + b1.toNat * 2 ^ 16 + b2.toNat * 2 ^ 8 + b3.toNat := by
  have h0 := b0.toNat_lt; have h1 := b1.toNat_lt; have h2 := b2.toNat_lt; have h3 := b3.toNat_lt
  simp only [UInt8.size] at h0 h1 h2 h3
  simp only [Uint32, List.getD_cons_zero, List.getD_cons_succ]
  rw [or_shiftLeft _ _ 8 (by omega), or_shiftLeft _ _ 16 (by omega),
    or_shiftLeft _ _ 24 (by omega)]
  omega

theorem Uint32_PutUint32 (v : Nat) (h : v < 2 ^ 32) : Uint32 (PutUint32 v) = v := by
  rw [PutUint32, Uint32_eq]
  simp only [byte_toNat, Nat.shiftRight_eq_div_pow]
  omega

theorem PutUint32_length (v : Nat) : (PutUint32 v).length = 4 := rfl

/-! ## Lemmas: the accumulation loop -/

theorem received_append (l1 l2 : List Event) :
    received (l1 ++ l2) = received l1 ++ received l2 := by
  simp [received]

theorem received_cons (ev : Event) (l : List Event) :
    received (ev :: l) = ev.received ++ received l := by
  simp [received]

/-- A loop that ends with `break` holds exactly `total` bytes. -/
theorem readLoop_broke_length {σ : Type} (c : Conn σ) (total : Nat) :
    ∀ (fuel : Nat) (s : σ) (buf : List Byte) (size : Nat) (b : List Byte) (t : σ),
      readLoop c total fuel s buf size = some (.broke b t) → b.length = total := by
  intro fuel
  induction fuel with
  | zero => intro s buf size b t h; simp [readLoop] at h
  | succ k ih =>
    intro s buf size b t h
    unfold readLoop at h
    simp only at h
    split at h
    · simp at h
    · split at h
      · simp only [Option.some.injEq, LoopExit.broke.injEq] at h
        obtain ⟨rfl, -⟩ := h
        assumption
      · exact ih _ _ _ _ _ h

/-- Once the buffer holds more than `total` bytes the loop cannot end with
`break`: it goes on reading until a `Read` fails. -/
theorem readLoop_overrun {σ : Type} (c : Conn σ) (total : Nat) :
    ∀ (fuel : Nat) (s : σ) (buf : List Byte) (size : Nat) (b : List Byte) (t : σ),
      total < buf.length → readLoop c total fuel s buf size ≠ some (.broke b t) := by
  intro fuel
  induction fuel with
  | zero => intro s buf size b t _ h; simp [readLoop] at h
  | succ k ih =>
    intro s buf size b t hlt h
    unfold readLoop at h
    simp only at h
    split at h
    · simp at h
    · split at h
      · rename_i hlen
        simp only [List.length_append] at hlen
        omega
      · exact ih _ _ _ _ _ (by simp only [List.length_append]; omega) h

/-- The calls a loop makes on a recorded stream: reads without error whose bytes
are exactly what the loop appends to its buffer, and, when the loop returns an
error, one last read that returned that error. -/
theorem readLoop_recording {σ : Type} (c : Conn σ) (total : Nat) :
    ∀ (fuel : Nat) (s : σ) (log : List Event) (buf : List Byte) (size : Nat)
      (out : LoopExit (σ × List Event)),
      readLoop (recording c) total fuel (s, log) buf size = some out →
      ∃ evs : List Event, (∀ ev ∈ evs, ev.err = none) ∧
        ((∃ t, out = .broke (buf ++ received evs) (t, log ++ evs)
            ∧ (buf ++ received evs).length = total) ∨
         (∃ t size1 data e,
            out = .returned e (t, log ++ evs ++ [Event.read size1 data (some e)]))) := by
  intro fuel
  induction fuel with
  | zero => intro s log buf size out h; simp [readLoop] at h
  | succ k ih =>
    intro s log buf size out h
    unfold readLoop at h
    simp only [recording] at h
    split at h
    · rename_i e he
      refine ⟨[], by simp, Or.inr ⟨(c.Read s size).next, size, (c.Read s size).data, e, ?_⟩⟩
      simp only [Option.some.injEq] at h
      rw [← h, he]
      simp
    · rename_i he
      split at h
      · rename_i hlen
        refine ⟨[Event.read size (c.Read s size).data none], by simp [Event.err], Or.inl
          ⟨(c.Read s size).next, ?_, ?_⟩⟩
        · simp only [Option.some.injEq] at h
          rw [← h, he]
          simp [received, Event.received]
        · simpa [received, Event.received] using hlen
      · obtain ⟨evs, hev, hout⟩ := ih _ _ _ _ _ h
        refine ⟨Event.read size (c.Read s size).data none :: evs, ?_, ?_⟩
        · intro ev hmem
          rcases List.mem_cons.1 hmem with rfl | hmem
          · rfl
          · exact hev ev hmem
        · rw [he] at hout
          rcases hout with ⟨t, hb, hl⟩ | ⟨t, size1, data, e, hr⟩
          · refine Or.inl ⟨t, ?_, ?_⟩
            · rw [hb]; simp [received_cons, Event.received]
            · simpa [received_cons, Event.received] using hl
          · refine Or.inr ⟨t, size1, data, e, ?_⟩
            rw [hr]; simp

/-- The calls one `readData` makes on a recorded stream.  On success: reads
without error that delivered a 4-byte header and then exactly as many bytes as
the header says, which are the returned data.  On failure: nil data, and the
last call is the read that returned the error. -/
theorem readData_recording {σ : Type} (c : Conn σ) (fuel : Nat) (s : σ) (log : List Event)
    (r : ReadDataResult (σ × List Event))
    (h : readData (recording c) fuel (s, log) = some r) :
    ∃ evs : List Event, r.conn.2 = log ++ evs ∧
      ((r.returnError = none ∧ (∀ ev ∈ evs, ev.err = none) ∧
          ∃ hd body, r.data = some body ∧ received evs = hd ++ body ∧ hd.length = 4
            ∧ body.length = Uint32 hd) ∨
       (∃ e pre size data, r.returnError = some e ∧ r.data = none
          ∧ evs = pre ++ [Event.read size data (some e)] ∧ ∀ ev ∈ pre, ev.err = none)) := by
  unfold readData at h
  cases h1 : readLoop (recording c) HeadSize fuel (s, log) [] HeadSize with
  | none => rw [h1] at h; simp at h
  | some out1 =>
    rw [h1] at h
    obtain ⟨evs1, hev1, hout1⟩ := readLoop_recording c HeadSize fuel s log [] HeadSize out1 h1
    rcases hout1 with ⟨t1, hb1, hl1⟩ | ⟨t1, size1, data1, e1, hr1⟩
    · subst hb1
      simp only [List.nil_append] at h hl1
      cases h2 : readLoop (recording c) (Uint32 (received evs1)) fuel (t1, log ++ evs1) []
          (Uint32 (received evs1)) with
      | none => rw [h2] at h; simp at h
      | some out2 =>
        rw [h2] at h
        obtain ⟨evs2, hev2, hout2⟩ := readLoop_recording c _ fuel t1 (log ++ evs1) [] _ out2 h2
        rcases hout2 with ⟨t2, hb2, hl2⟩ | ⟨t2, size2, data2, e2, hr2⟩
        · subst hb2
          simp only [List.nil_append, Option.some.injEq] at h hl2
          subst h
          refine ⟨evs1 ++ evs2, by simp, Or.inl ⟨rfl, ?_, received evs1, received evs2, rfl,
            received_append _ _, hl1, hl2⟩⟩
          intro ev hmem
          rcases List.mem_append.1 hmem with hm | hm
          · exact hev1 ev hm
          · exact hev2 ev hm
        · subst hr2
          simp only [Option.some.injEq] at h
          subst h
          refine ⟨evs1 ++ evs2 ++ [Event.read size2 data2 (some e2)], by simp,
            Or.inr ⟨e2, evs1 ++ evs2, size2, data2, rfl, rfl, rfl, ?_⟩⟩
          intro ev hmem
          rcases List.mem_append.1 hmem with hm | hm
          · exact hev1 ev hm
          · exact hev2 ev hm
    · subst hr1
      simp only [Option.some.injEq] at h
      subst h
      exact ⟨evs1 ++ [Event.read size1 data1 (some e1)], by simp,
        Or.inr ⟨e1, evs1, size1, data1, rfl, rfl, rfl, hev1⟩⟩

/-- A `Read` that fails makes the loop return its error, whatever number of
reads went before it, as soon as the fuel covers them. -/
theorem readLoop_returns_error {σ : Type} (c : Conn σ) (total : Nat) :
    ∀ (n fuel : Nat) (s : σ) (buf : List Byte) (size : Nat) (s1 : σ) (buf1 : List Byte)
      (size1 : Nat) (e : GoError),
      loopStateAfter c total n s buf size = some (s1, buf1, size1) →
      (c.Read s1 size1).err = some e → n < fuel →
      readLoop c total fuel s buf size = some (.returned e (c.Read s1 size1).next) := by
  intro n
  induction n with
  | zero =>
    intro fuel s buf size s1 buf1 size1 e hst herr hfuel
    obtain ⟨k, rfl⟩ : ∃ k, fuel = k + 1 := ⟨fuel - 1, by omega⟩
    simp only [loopStateAfter, Option.some.injEq, Prod.mk.injEq] at hst
    obtain ⟨rfl, rfl, rfl⟩ := hst
    unfold readLoop
    simp only [herr]
  | succ m ih =>
    intro fuel s buf size s1 buf1 size1 e hst herr hfuel
    obtain ⟨k, rfl⟩ : ∃ k, fuel = k + 1 := ⟨fuel - 1, by omega⟩
    unfold loopStateAfter at hst
    unfold readLoop
    simp only at hst ⊢
    split at hst
    · simp at hst
    · rename_i hnone
      split at hst
      · simp at hst
      · rename_i hlen
        simp only [hlen, if_false]
        exact ih k _ _ _ _ _ _ e hst herr (by omega)

/-- A `Read` that fills the buffer makes the loop end with `break`, whatever
number of reads went before it, as soon as the fuel covers them. -/
theorem readLoop_breaks {σ : Type} (c : Conn σ) (total : Nat) :
    ∀ (n fuel : Nat) (s : σ) (buf : List Byte) (size : Nat) (s1 : σ) (buf1 : List Byte)
      (size1 : Nat),
      loopStateAfter c total n s buf size = some (s1, buf1, size1) →
      (c.Read s1 size1).err = none → (buf1 ++ (c.Read s1 size1).data).length = total →
      n < fuel →
      readLoop c total fuel s buf size
        = some (.broke (buf1 ++ (c.Read s1 size1).data) (c.Read s1 size1).next) := by
  intro n
  induction n with
  | zero =>
    intro fuel s buf size s1 buf1 size1 hst herr hfull hfuel
    obtain ⟨k, rfl⟩ : ∃ k, fuel = k + 1 := ⟨fuel - 1, by omega⟩
    simp only [loopStateAfter, Option.some.injEq, Prod.mk.injEq] at hst
    obtain ⟨rfl, rfl, rfl⟩ := hst
    unfold readLoop
    simp only [herr, hfull, if_true]
  | succ m ih =>
    intro fuel s buf size s1 buf1 size1 hst herr hfull hfuel
    obtain ⟨k, rfl⟩ : ∃ k, fuel = k + 1 := ⟨fuel - 1, by omega⟩
    unfold loopStateAfter at hst
    unfold readLoop
    simp only at hst ⊢
    split at hst
    · simp at hst
    · rename_i hnone
      split at hst
      · simp at hst
      · rename_i hlen
        simp only [hlen, if_false]
        exact ih k _ _ _ _ _ _ hst herr hfull (by omega)

/-! ## Lemmas: the simulated stream -/

/-- On a simulated stream that first holds non-empty chunks with exactly the
bytes still missing, the loop ends with `break` after at most one `Read` per
byte, whatever the chunking, and leaves what follows the chunks: no `Read` can
return more than what is missing. -/
theorem readLoop_chunks (total : Nat) (rest : List ReadStep) (ws : List (Option GoError)) :
    ∀ (n : Nat) (chunks : List (List Byte)) (buf : List Byte) (size fuel : Nat),
      chunks.flatten.length = n → (∀ ch ∈ chunks, ch ≠ []) →
      buf.length + n = total → 0 < n → 0 < size → n ≤ fuel →
      readLoop simConn total fuel ⟨chunks.map ReadStep.chunk ++ rest, ws⟩ buf size
        = some (.broke (buf ++ chunks.flatten) ⟨rest, ws⟩) := by
  intro n
  induction n using Nat.strong_induction_on with
  | _ n ih =>
    intro chunks buf size fuel hn hne htot hpos hsize hfuel
    obtain ⟨k, rfl⟩ : ∃ k, fuel = k + 1 := ⟨fuel - 1, by omega⟩
    obtain ⟨sz, rfl⟩ : ∃ sz, size = sz + 1 := ⟨size - 1, by omega⟩
    cases chunks with
    | nil => simp at hn; omega
    | cons ch more =>
      have hch : ch ≠ [] := hne ch (by simp)
      have hchlen : 0 < ch.length := List.length_pos.2 hch
      simp only [List.flatten_cons, List.length_append] at hn
      unfold readLoop
      have hR : ∀ (st : Sim) (m : Nat), simConn.Read st m = Sim.Read st m := fun _ _ => rfl
      simp only [hR, Sim.Read, List.map_cons, List.cons_append]
      by_cases hfit : ch.length ≤ sz + 1
      · -- the whole chunk is handed out
        have htake : ch.take (sz + 1) = ch := List.take_of_length_le hfit
        simp only [hfit, if_true, htake]
        by_cases hdone : (buf ++ ch).length = total
        · have hmore : more.flatten.length = 0 := by
            simp only [List.length_append] at hdone; omega
          have hmore2 : more = [] := by
            cases more with
            | nil => rfl
            | cons c2 r2 =>
              have : c2 ≠ [] := hne c2 (by simp)
              have := List.length_pos.2 this
              simp only [List.flatten_cons, List.length_append] at hmore
              omega
          subst hmore2
          simp [hdone]
        · simp only [hdone, if_false]
          have hlen : (buf ++ ch).length = buf.length + ch.length := List.length_append _ _
          rw [ih more.flatten.length (by omega) more (buf ++ ch) (total - ch.length) k rfl
            (fun c hc => hne c (by simp [hc])) (by omega) (by omega) (by omega) (by omega)]
          simp
      · -- the chunk is larger than the buffer
        simp only [hfit, if_false]
        have htl : (ch.take (sz + 1)).length = sz + 1 := by
          rw [List.length_take]; omega
        have hdl : (ch.drop (sz + 1)).length = ch.length - (sz + 1) := List.length_drop _ _
        by_cases hdone : (buf ++ ch.take (sz + 1)).length = total
        · exfalso
          simp only [List.length_append] at hdone
          omega
        · simp only [hdone, if_false]
          have hmap : ReadStep.chunk (ch.drop (sz + 1)) :: (more.map ReadStep.chunk ++ rest)
              = (ch.drop (sz + 1) :: more).map ReadStep.chunk ++ rest := by simp
          rw [hmap, ih (ch.drop (sz + 1) :: more).flatten.length
            (by simp only [List.flatten_cons, List.length_append]; omega)
            (ch.drop (sz + 1) :: more) (buf ++ ch.take (sz + 1)) (total - (ch.take (sz + 1)).length)
            k rfl ?_
            (by simp only [List.flatten_cons, List.length_append]; omega)
            (by simp only [List.flatten_cons, List.length_append]; omega)
            (by simp only [List.length_append] at hdone; omega)
            (by simp only [List.flatten_cons, List.length_append]; omega)]
          · simp [List.append_assoc]
            rw [← List.append_assoc, List.take_append_drop]
          · intro c hc
            rcases List.mem_cons.1 hc with rfl | hc
            · intro hnil
              have := congrArg List.length hnil
              simp only [List.length_drop, List.length_nil] at this
              omega
            · exact hne c (by simp [hc])

/-- What the code does deliver: when a chunk boundary falls between the header
and the payload and the stream ends with the payload, no `Read` can return more
than is missing, and `readData` returns the payload whatever the chunking of
either part. -/
theorem readData_round_trip_aligned (p : List Byte) (hp : p.length < 2 ^ 32)
    (hs ps : List (List Byte)) (ws : List (Option GoError)) (fuel : Nat)
    (hhs : hs.flatten = PutUint32 p.length) (hps : ps.flatten = p)
    (hne1 : ∀ ch ∈ hs, ch ≠ []) (hne2 : ∀ ch ∈ ps, ch ≠ [])
    (hf1 : 4 ≤ fuel) (hf2 : p.length ≤ fuel) :
    readData simConn fuel ⟨(hs ++ ps).map ReadStep.chunk, ws⟩
      = some ⟨some p, none, ⟨[], ws⟩⟩ := by
  have hhead := readLoop_chunks HeadSize (ps.map ReadStep.chunk) ws 4 hs [] HeadSize fuel
    (by rw [hhs]; rfl) hne1 (by simp [HeadSize]) (by omega) (by simp [HeadSize]) hf1
  unfold readData
  rw [List.map_append, hhead, List.nil_append, hhs]
  simp only [Uint32_PutUint32 _ hp]
  by_cases hzero : p.length = 0
  · have hpnil : p = [] := List.length_eq_zero.1 hzero
    have hps2 : ps = [] := by
      cases ps with
      | nil => rfl
      | cons c2 r2 =>
        have h1 : c2 ≠ [] := hne2 c2 (by simp)
        have h2 := List.length_pos.2 h1
        have h3 := congrArg List.length hps
        simp only [List.flatten_cons, List.length_append] at h3
        omega
    subst hps2
    subst hpnil
    obtain ⟨k, rfl⟩ : ∃ k, fuel = k + 1 := ⟨fuel - 1, by omega⟩
    rfl
  · have hbody := readLoop_chunks p.length [] ws p.length ps [] p.length fuel
      (by rw [hps]) hne2 (by simp) (by omega) (by omega) hf2
    rw [List.append_nil] at hbody
    rw [hbody, hps]
    rfl

/-! ## The claims -/

/-- C1 (the code at a failing input).  The frame of the one-byte payload `07` is
`00 00 00 01 07`.  Delivered as the chunks `00`, `00`, `00 01 07`, the third
`Read` gets a 3-byte buffer (`HeadSize - readSize` with `readSize = 1`) while
only 2 header bytes are missing, so it swallows the payload byte into the header
buffer; the buffer then holds 5 bytes, never 4 again, and `readData` reads on
until the stream ends: it returns nil data and `io.EOF`, not the payload. -/
theorem readData_short_reads_lose_frame :
    ([[0], [0], [0, 1, 7]] : List (List Byte)).flatten = PutUint32 1 ++ [7] ∧
    ∀ k : Nat,
      readData simConn (k + 5) ⟨[.chunk [0], .chunk [0], .chunk [0, 1, 7]], []⟩
        = some ⟨none, some .EOF, ⟨[], []⟩⟩ := by
  refine ⟨by decide, ?_⟩
  intro k
  rfl

/-- C2.  For a serialized envelope `d` shorter than 2^32 bytes, on an open
codec over a recorded stream: when no call on the stream returned an error,
`WriteRequest` (client) and `WriteResponse` (server) return nil and have put on
the stream exactly `4 + len(d)` bytes, the big-endian 32-bit length of `d`
followed by `d` itself; the first 4 bytes decode to the number of bytes that
follow. -/
theorem write_frame_wire_format {σ : Type} (c : Conn σ) (s : σ) (d : List Byte)
    (hlen : d.length < 2 ^ 32) :
    (∀ (Marshal : MsgpackReq → Except GoError (List Byte)) (resp : MsgpackResp)
        (r : Request) (arg : Iface) (out : Outcome × MessagePackClientCodec (σ × List Event)),
        Marshal { toRequest := r, Arg := arg } = .ok d →
        out = client.WriteRequest (recording c) Marshal ⟨(s, []), resp, false⟩ r arg →
        (∀ ev ∈ out.2.rwc.2, ev.err = none) →
        out.1 = .returned none ∧ sent out.2.rwc.2 = PutUint32 d.length ++ d
          ∧ (sent out.2.rwc.2).length = 4 + d.length
          ∧ Uint32 ((sent out.2.rwc.2).take 4) = ((sent out.2.rwc.2).drop 4).length
          ∧ (sent out.2.rwc.2).drop 4 = d) ∧
    (∀ (Marshal : MsgpackResp → Except GoError (List Byte)) (req : MsgpackReq)
        (r : Response) (reply : Iface) (out : Outcome × MessagePackServerCodec (σ × List Event)),
        Marshal { toResponse := r, Reply := reply } = .ok d →
        out = server.WriteResponse (recording c) Marshal ⟨(s, []), req, false⟩ r reply →
        (∀ ev ∈ out.2.rwc.2, ev.err = none) →
        out.1 = .returned none ∧ sent out.2.rwc.2 = PutUint32 d.length ++ d
          ∧ (sent out.2.rwc.2).length = 4 + d.length
          ∧ Uint32 ((sent out.2.rwc.2).take 4) = ((sent out.2.rwc.2).drop 4).length
          ∧ (sent out.2.rwc.2).drop 4 = d) := by
  have hmod : d.length % 4294967296 = d.length := Nat.mod_eq_of_lt hlen
  have key : ∀ (t : σ) (log : List Event),
      log = [Event.write (PutUint32 d.length) (c.Write s (PutUint32 d.length)).n
              (c.Write s (PutUint32 d.length)).err,
             Event.write d (c.Write t d).n (c.Write t d).err] →
      (∀ ev ∈ log, ev.err = none) →
      (c.Write t d).err = none ∧ sent log = PutUint32 d.length ++ d
        ∧ (sent log).length = 4 + d.length
        ∧ Uint32 ((sent log).take 4) = ((sent log).drop 4).length
        ∧ (sent log).drop 4 = d := by
    intro t log hlog hok
    subst hlog
    have h1 : (c.Write s (PutUint32 d.length)).err = none := by
      simpa [Event.err] using hok _ (List.mem_cons_self _ _)
    have h2 : (c.Write t d).err = none := by
      simpa [Event.err] using hok _ (List.mem_cons_of_mem _ (List.mem_cons_self _ _))
    have n1 := c.Write_full _ _ h1
    have n2 := c.Write_full _ _ h2
    have hs : sent [Event.write (PutUint32 d.length) (c.Write s (PutUint32 d.length)).n
              (c.Write s (PutUint32 d.length)).err,
             Event.write d (c.Write t d).n (c.Write t d).err] = PutUint32 d.length ++ d := by
      simp only [sent, List.map_cons, List.map_nil, Event.sent, n1, n2, List.flatten_cons,
        List.flatten_nil, List.append_nil, List.take_length]
    have hd : (PutUint32 d.length ++ d).drop 4 = d := by
      rw [List.drop_append_of_le_length (by simp [PutUint32_length])]
      simp [PutUint32]
    have ht : (PutUint32 d.length ++ d).take 4 = PutUint32 d.length := by
      rw [List.take_append_of_le_length (by simp [PutUint32_length])]
      simp [PutUint32]
    refine ⟨h2, hs, ?_, ?_, ?_⟩
    · rw [hs, List.length_append, PutUint32_length]
    · rw [hs, ht, hd, Uint32_PutUint32 _ hlen]
    · rw [hs, hd]
  constructor
  · intro Marshal resp r arg out hm hout hok
    have hout2 : out = (.returned (c.Write (c.Write s (PutUint32 d.length)).next d).err,
        ⟨((c.Write (c.Write s (PutUint32 d.length)).next d).next,
          [Event.write (PutUint32 d.length) (c.Write s (PutUint32 d.length)).n
              (c.Write s (PutUint32 d.length)).err,
           Event.write d (c.Write (c.Write s (PutUint32 d.length)).next d).n
              (c.Write (c.Write s (PutUint32 d.length)).next d).err]), resp, false⟩) := by
      rw [hout]
      simp [client.WriteRequest, hm, hmod, recording]
    subst hout2
    obtain ⟨h2, rest⟩ := key _ _ rfl hok
    exact ⟨by simp [h2], rest⟩
  · intro Marshal req r reply out hm hout hok
    have hout2 : out = (.returned (c.Write (c.Write s (PutUint32 d.length)).next d).err,
        ⟨((c.Write (c.Write s (PutUint32 d.length)).next d).next,
          [Event.write (PutUint32 d.length) (c.Write s (PutUint32 d.length)).n
              (c.Write s (PutUint32 d.length)).err,
           Event.write d (c.Write (c.Write s (PutUint32 d.length)).next d).n
              (c.Write (c.Write s (PutUint32 d.length)).next d).err]), req, false⟩) := by
      rw [hout]
      simp [server.WriteResponse, hm, hmod, recording]
    subst hout2
    obtain ⟨h2, rest⟩ := key _ _ rfl hok
    exact ⟨by simp [h2], rest⟩

/-- C2, at the three-byte envelope `93 01 02` on a stream that accepts every
write. -/
theorem write_frame_wire_format_witness :
    ([0x93, 1, 2] : List Byte).length < 2 ^ 32 ∧
    sent (client.WriteRequest (recording simConn) sampleMarshalReq
        ⟨(⟨[], []⟩, []), zeroResp, false⟩ ⟨"Echo.Echo", 7⟩ (some (.string "hi"))).2.rwc.2
      = PutUint32 3 ++ [0x93, 1, 2] ∧
    sent (server.WriteResponse (recording simConn) sampleMarshalResp
        ⟨(⟨[], []⟩, []), zeroReq, false⟩ ⟨"Echo.Echo", 7, ""⟩ (some (.string "hi"))).2.rwc.2
      = PutUint32 3 ++ [0x93, 1, 2] :=
  ⟨by decide,
   ((write_frame_wire_format simConn ⟨[], []⟩ [0x93, 1, 2] (by decide)).1 sampleMarshalReq
      zeroResp ⟨"Echo.Echo", 7⟩ (some (.string "hi")) _ rfl rfl (by decide)).2.1,
   ((write_frame_wire_format simConn ⟨[], []⟩ [0x93, 1, 2] (by decide)).2 sampleMarshalResp
      zeroReq ⟨"Echo.Echo", 7, ""⟩ (some (.string "hi")) _ rfl rfl (by decide)).2.1⟩

/-- C3.  For every stream: (1) when the `n+1`-th `Read` of the header loop
returns an error, `readData` returns, with any fuel above `n`, that same error
and nil data; (2) when the header loop is filled by its `m+1`-th `Read` and the
`n+1`-th `Read` of the body loop returns an error, `readData` returns, with any
fuel above `m` and `n`, that same error and nil data; (3) whatever was called
on a recorded stream before (`log`), the calls `evs` that one `readData` adds
satisfy: if one of them is a `Read` that returned an error, `readData` returns
that same error and nil data; and the data it returns on success are the tail
of the bytes received by these calls alone, so no byte read before the call (by
an earlier, failed call for instance) is part of it. -/
theorem readData_read_error {σ : Type} (c : Conn σ) :
    (∀ (n fuel : Nat) (s s1 : σ) (buf1 : List Byte) (size1 : Nat) (e : GoError),
      loopStateAfter c HeadSize n s [] HeadSize = some (s1, buf1, size1) →
      (c.Read s1 size1).err = some e → n < fuel →
      readData c fuel s = some ⟨none, some e, (c.Read s1 size1).next⟩) ∧
    (∀ (m n fuel : Nat) (s s1 s2 : σ) (buf1 buf2 : List Byte) (size1 size2 : Nat)
        (e : GoError),
      loopStateAfter c HeadSize m s [] HeadSize = some (s1, buf1, size1) →
      (c.Read s1 size1).err = none →
      (buf1 ++ (c.Read s1 size1).data).length = HeadSize →
      loopStateAfter c (Uint32 (buf1 ++ (c.Read s1 size1).data)) n (c.Read s1 size1).next []
          (Uint32 (buf1 ++ (c.Read s1 size1).data)) = some (s2, buf2, size2) →
      (c.Read s2 size2).err = some e → m < fuel → n < fuel →
      readData c fuel s = some ⟨none, some e, (c.Read s2 size2).next⟩) ∧
    (∀ (fuel : Nat) (s : σ) (log : List Event) (r : ReadDataResult (σ × List Event)),
      readData (recording c) fuel (s, log) = some r →
      ∃ evs : List Event, r.conn.2 = log ++ evs ∧
        (∀ size data e, Event.read size data (some e) ∈ evs →
          r.returnError = some e ∧ r.data = none) ∧
        (∀ payload, r.data = some payload → ∃ hd, received evs = hd ++ payload)) := by
  refine ⟨?_, ?_, ?_⟩
  · intro n fuel s s1 buf1 size1 e hst herr hfuel
    unfold readData
    rw [readLoop_returns_error c HeadSize n fuel s [] HeadSize s1 buf1 size1 e hst herr hfuel]
  · intro m n fuel s s1 s2 buf1 buf2 size1 size2 e hst1 hok hfull hst2 herr hm hn
    unfold readData
    rw [readLoop_breaks c HeadSize m fuel s [] HeadSize s1 buf1 size1 hst1 hok hfull hm]
    simp only
    rw [readLoop_returns_error c _ n fuel _ [] _ s2 buf2 size2 e hst2 herr hn]
  · intro fuel s log r h
    obtain ⟨evs, hlog, hcase⟩ := readData_recording c fuel s log r h
    refine ⟨evs, hlog, ?_, ?_⟩
    · intro size data e hmem
      rcases hcase with ⟨-, hok, -⟩ | ⟨e1, pre, size1, data1, herr, hdata, hevs, hpre⟩
      · have := hok _ hmem
        simp [Event.err] at this
      · subst hevs
        rcases List.mem_append.1 hmem with hm | hm
        · have := hpre _ hm
          simp [Event.err] at this
        · simp only [List.mem_singleton, Event.read.injEq, Option.some.injEq] at hm
          obtain ⟨-, -, rfl⟩ := hm
          exact ⟨herr, hdata⟩
    · intro payload hp
      rcases hcase with ⟨-, -, hd, body, hdata, hrecv, -, -⟩ | ⟨e1, pre, size1, data1, -, hdata, -, -⟩
      · rw [hdata] at hp
        simp only [Option.some.injEq] at hp
        subst hp
        exact ⟨hd, hrecv⟩
      · rw [hdata] at hp
        simp at hp

/-- C3, on a stream that fails after two header bytes (second `Read` of the
header loop), on a stream that fails after the header and one of two payload
bytes (second `Read` of the body loop), and on the recorded first stream. -/
theorem readData_read_error_witness :
    readData simConn 2 brokenStream
      = some ⟨none, some (.msg "read: connection reset by peer"), ⟨[], []⟩⟩ ∧
    readData simConn 2 brokenBodyStream
      = some ⟨none, some (.msg "read: connection reset by peer"), ⟨[], []⟩⟩ ∧
    ∃ evs : List Event,
      [Event.read 4 [0, 0] none,
        Event.read 2 [] (some (.msg "read: connection reset by peer"))] = [] ++ evs ∧
      (∀ size data e, Event.read size data (some e) ∈ evs →
        (some (GoError.msg "read: connection reset by peer") = some e
          ∧ (none : Option (List Byte)) = none)) ∧
      (∀ payload, (none : Option (List Byte)) = some payload →
        ∃ hd, received evs = hd ++ payload) :=
  ⟨(readData_read_error simConn).1 1 2 brokenStream
      ⟨[.fail (.msg "read: connection reset by peer")], []⟩ [0, 0] 2
      (.msg "read: connection reset by peer") (by decide) (by decide) (by decide),
   (readData_read_error simConn).2.1 0 1 2 brokenBodyStream brokenBodyStream
      ⟨[.fail (.msg "read: connection reset by peer")], []⟩ [] [9] 4 1
      (.msg "read: connection reset by peer") (by decide) (by decide) (by decide) (by decide)
      (by decide) (by decide) (by decide),
   (readData_read_error simConn).2.2 3 brokenStream []
    ⟨none, some (.msg "read: connection reset by peer"),
      (⟨[], []⟩, [Event.read 4 [0, 0] none,
        Event.read 2 [] (some (.msg "read: connection reset by peer"))])⟩ (by decide)⟩

/-- C4 (the code at a failing input).  On an open codec whose serialization
succeeds, over a stream whose first `Write` fails and whose second `Write`
succeeds: `WriteRequest` and `WriteResponse` still write the payload and return
nil, since the error of the header `Write` is overwritten by the result of the
payload `Write`. -/
theorem write_header_error_is_dropped :
    client.WriteRequest (recording simConn) sampleMarshalReq
        ⟨(flakyStream, []), zeroResp, false⟩ ⟨"Echo.Echo", 7⟩ (some (.string "hi"))
      = (.returned none,
          ⟨(⟨[], []⟩, [Event.write [0, 0, 0, 3] 0 (some (.msg "write: broken pipe")),
                       Event.write [0x93, 1, 2] 3 none]), zeroResp, false⟩) ∧
    server.WriteResponse (recording simConn) sampleMarshalResp
        ⟨(flakyStream, []), zeroReq, false⟩ ⟨"Echo.Echo", 7, ""⟩ (some (.string "hi"))
      = (.returned none,
          ⟨(⟨[], []⟩, [Event.write [0, 0, 0, 3] 0 (some (.msg "write: broken pipe")),
                       Event.write [0x93, 1, 2] 3 none]), zeroReq, false⟩) := by
  decide

/-- C5.  When the cached response has a non-empty `Error`, `ReadResponseBody`
returns an error whose text is that `Error` and leaves `reply` as it was,
whatever `reply` holds (nil, a pointer, anything else).  When `Error` is empty
and `reply` is a non-nil pointer to whose element type the cached `Reply` is
assignable, it returns nil and the variable holds the cached `Reply`. -/
theorem ReadResponseBody_error_text {σ : Type} (c : MessagePackClientCodec σ) :
    (c.resp.Error ≠ "" → ∀ reply : Dest,
      ∃ e : GoError, client.ReadResponseBody c reply = (.returned (some e), reply)
        ∧ e.Error = c.resp.Error) ∧
    (c.resp.Error = "" → ∀ (elem : GoType) (cur : Iface) (v : GoValue),
      c.resp.Reply = some v → assignable elem v = true →
      client.ReadResponseBody c (.pointer elem cur)
        = (.returned none, .pointer elem c.resp.Reply)) := by
  constructor
  · intro hne reply
    refine ⟨.msg c.resp.Error, ?_, rfl⟩
    have : ("" : String) ≠ c.resp.Error := fun h => hne h.symm
    simp [client.ReadResponseBody, this]
  · intro he elem cur v hv hassign
    simp [client.ReadResponseBody, he, hv, reflectElemSet, hassign]

/-- C5, at a response with `Error = "no such method"` and at the successful
response `"hi"` read into a `*string`. -/
theorem ReadResponseBody_error_text_witness :
    (∃ e : GoError,
      client.ReadResponseBody (σ := Sim)
          ⟨⟨[], []⟩, { zeroResp with Error := "no such method" }, false⟩
          (.pointer .string (some (.string "old")))
        = (.returned (some e), .pointer .string (some (.string "old")))
      ∧ e.Error = "no such method") ∧
    client.ReadResponseBody (σ := Sim)
        ⟨⟨[], []⟩, { zeroResp with Reply := some (.string "hi") }, false⟩
        (.pointer .string (some (.string "old")))
      = (.returned none, .pointer .string (some (.string "hi"))) :=
  ⟨(ReadResponseBody_error_text (σ := Sim)
      ⟨⟨[], []⟩, { zeroResp with Error := "no such method" }, false⟩).1 (by decide) _,
   (ReadResponseBody_error_text (σ := Sim)
      ⟨⟨[], []⟩, { zeroResp with Reply := some (.string "hi") }, false⟩).2 (by decide)
      .string (some (.string "old")) (.string "hi") rfl (by decide)⟩

/-- C6 (counterexample).  A decoded `int64` argument read into a `*string`, a
decoded nil argument, and a decoded `int64` reply read into a `*string` on the
client: each call panics inside `reflect.Value.Set`; none returns an error. -/
theorem coercion_mismatch_not_reported :
    server.ReadRequestBody (σ := Sim)
        ⟨⟨[], []⟩, { zeroReq with Arg := some (.int64 5) }, false⟩
        (.pointer .string (some (.string "")))
      = (.panicked .reflect, .pointer .string (some (.string ""))) ∧
    server.ReadRequestBody (σ := Sim) ⟨⟨[], []⟩, zeroReq, false⟩
        (.pointer .string (some (.string "")))
      = (.panicked .reflect, .pointer .string (some (.string ""))) ∧
    client.ReadResponseBody (σ := Sim)
        ⟨⟨[], []⟩, { zeroResp with Reply := some (.int64 5) }, false⟩
        (.pointer .string (some (.string "")))
      = (.panicked .reflect, .pointer .string (some (.string ""))) := by
  decide

/-- C6 (amended).  When the decoded argument (server) or reply (client, empty
`Error`) is nil or has a dynamic type that is not assignable to the element
type of the non-nil destination pointer, `ReadRequestBody` and
`ReadResponseBody` panic inside package reflect, and the destination is left
unmodified. -/
theorem coercion_mismatch_panics {σ : Type} (elem : GoType) (cur : Iface) (x : Iface)
    (hx : ∀ v, x = some v → assignable elem v = false) :
    (∀ c : MessagePackServerCodec σ, c.req.Arg = x →
      server.ReadRequestBody c (.pointer elem cur)
        = (.panicked .reflect, .pointer elem cur)) ∧
    (∀ c : MessagePackClientCodec σ, c.resp.Error = "" → c.resp.Reply = x →
      client.ReadResponseBody c (.pointer elem cur)
        = (.panicked .reflect, .pointer elem cur)) := by
  have key : reflectElemSet (.pointer elem cur) x = (some .reflect, .pointer elem cur) := by
    cases x with
    | none => rfl
    | some v => simp [reflectElemSet, hx v rfl]
  constructor
  · intro c hc
    simp [server.ReadRequestBody, hc, key]
  · intro c he hc
    simp [client.ReadResponseBody, he, hc, key]

/-- C6 (amended), at a decoded `int64` and a `*string` destination. -/
theorem coercion_mismatch_panics_witness :
    (∀ v, (some (GoValue.int64 5) : Iface) = some v → assignable .string v = false) ∧
    server.ReadRequestBody (σ := Sim)
        ⟨⟨[], []⟩, { zeroReq with Arg := some (.int64 5) }, false⟩
        (.pointer .string (some (.string "")))
      = (.panicked .reflect, .pointer .string (some (.string ""))) :=
  ⟨by intro v hv; cases hv; decide,
   (coercion_mismatch_panics (σ := Sim) .string (some (.string "")) (some (.int64 5))
      (by intro v hv; cases hv; decide)).1 _ rfl⟩

/-- C7 (counterexample).  A `Read` that fails with `i/o timeout` and a frame
whose bytes do not decode: `ReadRequestHeader` panics in both cases instead of
returning an error; and on a closed codec it returns nil without having read
anything or set `r`. -/
theorem ReadRequestHeader_panics :
    server.ReadRequestHeader simConn sampleUnmarshalReq 3
        ⟨timeoutStream, zeroReq, false⟩ ⟨"", 0⟩
      = some (.panicked (.error (.msg "i/o timeout")), ⟨⟨[], []⟩, zeroReq, false⟩, ⟨"", 0⟩) ∧
    server.ReadRequestHeader simConn sampleUnmarshalReq 3
        ⟨⟨[.chunk [0, 0, 0, 2, 1, 2]], []⟩, zeroReq, false⟩ ⟨"", 0⟩
      = some (.panicked (.error (.msg "msgpack: invalid code")),
          ⟨⟨[], []⟩, zeroReq, false⟩, ⟨"", 0⟩) ∧
    server.ReadRequestHeader simConn sampleUnmarshalReq 3
        ⟨oneFrameStream, zeroReq, true⟩ ⟨"", 0⟩
      = some (.returned none, ⟨oneFrameStream, zeroReq, true⟩, ⟨"", 0⟩) := by
  decide

/-- C7 (amended).  On a closed codec `ReadRequestHeader` returns nil at once and
leaves the codec and `r` untouched.  On an open codec, once `readData` has
returned: a read error that is `io.EOF` or whose text contains
`connection reset by peer` is returned as it is; any other read error makes it
panic with that error; bytes that do not decode make it panic with the decode
error; a decoded request is cached, `r.ServiceMethod` and `r.Seq` are set from
it and nil is returned.  So an open codec returns nil only after setting
`r.ServiceMethod` and `r.Seq` from a successfully decoded request. -/
theorem ReadRequestHeader_outcomes {σ : Type} (conn : Conn σ)
    (Unmarshal : List Byte → Except GoError MsgpackReq) (fuel : Nat)
    (c : MessagePackServerCodec σ) (r : Request) :
    (c.closed = true →
      server.ReadRequestHeader conn Unmarshal fuel c r = some (.returned none, c, r)) ∧
    (c.closed = false → ∀ rd, readData conn fuel c.rwc = some rd →
      (∀ e, rd.returnError = some e →
        (e = .EOF ∨ stringsContains e.Error "connection reset by peer" = true) →
        server.ReadRequestHeader conn Unmarshal fuel c r
          = some (.returned (some e), { c with rwc := rd.conn }, r)) ∧
      (∀ e, rd.returnError = some e →
        e ≠ .EOF → stringsContains e.Error "connection reset by peer" = false →
        server.ReadRequestHeader conn Unmarshal fuel c r
          = some (.panicked (.error e), { c with rwc := rd.conn }, r)) ∧
      (∀ e, rd.returnError = none → Unmarshal (rd.data.getD []) = .error e →
        server.ReadRequestHeader conn Unmarshal fuel c r
          = some (.panicked (.error e), { c with rwc := rd.conn }, r)) ∧
      (∀ request, rd.returnError = none → Unmarshal (rd.data.getD []) = .ok request →
        server.ReadRequestHeader conn Unmarshal fuel c r
          = some (.returned none, { c with rwc := rd.conn, req := request },
              { r with ServiceMethod := request.ServiceMethod, Seq := request.Seq }))) ∧
    (c.closed = false → ∀ c1 r1,
      server.ReadRequestHeader conn Unmarshal fuel c r = some (.returned none, c1, r1) →
      ∃ rd request, readData conn fuel c.rwc = some rd ∧ rd.returnError = none
        ∧ Unmarshal (rd.data.getD []) = .ok request ∧ c1.req = request
        ∧ r1.ServiceMethod = request.ServiceMethod ∧ r1.Seq = request.Seq) := by
  refine ⟨?_, ?_, ?_⟩
  · intro hc
    simp [server.ReadRequestHeader, hc]
  · intro hc rd hrd
    refine ⟨?_, ?_, ?_, ?_⟩
    · intro e he hcase
      rcases hcase with rfl | hcont
      · simp [server.ReadRequestHeader, hc, hrd, he]
      · by_cases heof : e = .EOF
        · subst heof
          simp [server.ReadRequestHeader, hc, hrd, he]
        · simp [server.ReadRequestHeader, hc, hrd, he, heof, hcont]
    · intro e he hne hcont
      simp [server.ReadRequestHeader, hc, hrd, he, hne, hcont]
    · intro e he hu
      simp [server.ReadRequestHeader, hc, hrd, he, hu]
    · intro request he hu
      simp [server.ReadRequestHeader, hc, hrd, he, hu]
  · intro hc c1 r1 h
    unfold server.ReadRequestHeader at h
    simp only [hc, Bool.false_eq_true, if_false] at h
    cases hrd : readData conn fuel c.rwc with
    | none => rw [hrd] at h; simp at h
    | some rd =>
      rw [hrd] at h
      simp only at h
      cases he : rd.returnError with
      | some e =>
        rw [he] at h
        simp only at h
        split at h
        · simp at h
        · split at h <;> simp at h
      | none =>
        rw [he] at h
        simp only at h
        cases hu : Unmarshal (rd.data.getD []) with
        | error e => rw [hu] at h; simp at h
        | ok request =>
          rw [hu] at h
          simp only [Option.some.injEq, Prod.mk.injEq, true_and] at h
          obtain ⟨rfl, rfl⟩ := h
          exact ⟨rd, request, rfl, he, hu, rfl, rfl, rfl⟩

/-- C7 (amended), at a stream that delivers the frame of the payload `07` in
three chunks, and at a stream whose `Read` times out. -/
theorem ReadRequestHeader_outcomes_witness :
    server.ReadRequestHeader simConn sampleUnmarshalReq 3
        ⟨oneFrameStream, zeroReq, false⟩ ⟨"", 0⟩
      = some (.returned none,
          ⟨⟨[], []⟩, { ServiceMethod := "Echo.Echo", Seq := 7, Arg := some (.string "hi") }, false⟩,
          ⟨"Echo.Echo", 7⟩) ∧
    server.ReadRequestHeader simConn sampleUnmarshalReq 3
        ⟨timeoutStream, zeroReq, false⟩ ⟨"", 0⟩
      = some (.panicked (.error (.msg "i/o timeout")), ⟨⟨[], []⟩, zeroReq, false⟩, ⟨"", 0⟩) ∧
    server.ReadRequestHeader simConn sampleUnmarshalReq 3
        ⟨oneFrameStream, zeroReq, true⟩ ⟨"", 0⟩
      = some (.returned none, ⟨oneFrameStream, zeroReq, true⟩, ⟨"", 0⟩) :=
  ⟨((ReadRequestHeader_outcomes simConn sampleUnmarshalReq 3
        ⟨oneFrameStream, zeroReq, false⟩ ⟨"", 0⟩).2.1 rfl
        ⟨some [7], none, ⟨[], []⟩⟩ (by decide)).2.2.2
        { ServiceMethod := "Echo.Echo", Seq := 7, Arg := some (.string "hi") } rfl rfl,
   ((ReadRequestHeader_outcomes simConn sampleUnmarshalReq 3
        ⟨timeoutStream, zeroReq, false⟩ ⟨"", 0⟩).2.1 rfl
        ⟨none, some (.msg "i/o timeout"), ⟨[], []⟩⟩ (by decide)).2.1
        (.msg "i/o timeout") rfl (by decide) (by decide),
   (ReadRequestHeader_outcomes simConn sampleUnmarshalReq 3
        ⟨oneFrameStream, zeroReq, true⟩ ⟨"", 0⟩).1 rfl⟩

/-- C8 (counterexample).  The stream fails because the connection was closed:
`ReadResponseHeader` returns nil, not an error, although no response was read
or decoded (`r` and the cached response are untouched).  On any other read
error it panics. -/
theorem ReadResponseHeader_closed_connection_is_nil :
    client.ReadResponseHeader simConn sampleUnmarshalResp 3
        ⟨closedStream, zeroResp, false⟩ ⟨"", 0, ""⟩
      = some (.returned none, ⟨⟨[], []⟩, zeroResp, false⟩, ⟨"", 0, ""⟩) ∧
    client.ReadResponseHeader simConn sampleUnmarshalResp 3
        ⟨⟨[.chunk [0, 0]], []⟩, zeroResp, false⟩ ⟨"", 0, ""⟩
      = some (.panicked (.error .EOF), ⟨⟨[], []⟩, zeroResp, false⟩, ⟨"", 0, ""⟩) := by
  decide

/-- C8 (amended).  `ReadResponseHeader` never returns a non-nil error.  On a
closed codec it returns nil at once.  On an open codec, once `readData` has
returned: a read error whose text contains `use of closed network connection`
makes it return nil with `r` and the cached response untouched; any other read
error (`io.EOF` included) makes it panic with that error; bytes that do not
decode make it panic with the decode error; a decoded response is cached,
`r.ServiceMethod` and `r.Seq` are set from it and nil is returned. -/
theorem ReadResponseHeader_outcomes {σ : Type} (conn : Conn σ)
    (Unmarshal : List Byte → Except GoError MsgpackResp) (fuel : Nat)
    (c : MessagePackClientCodec σ) (r : Response) :
    (∀ out, client.ReadResponseHeader conn Unmarshal fuel c r = some out →
      ∀ e, out.1 ≠ .returned (some e)) ∧
    (c.closed = true →
      client.ReadResponseHeader conn Unmarshal fuel c r = some (.returned none, c, r)) ∧
    (c.closed = false → ∀ rd, readData conn fuel c.rwc = some rd →
      (∀ e, rd.returnError = some e →
        stringsContains e.Error "use of closed network connection" = true →
        client.ReadResponseHeader conn Unmarshal fuel c r
          = some (.returned none, { c with rwc := rd.conn }, r)) ∧
      (∀ e, rd.returnError = some e →
        stringsContains e.Error "use of closed network connection" = false →
        client.ReadResponseHeader conn Unmarshal fuel c r
          = some (.panicked (.error e), { c with rwc := rd.conn }, r)) ∧
      (∀ e, rd.returnError = none → Unmarshal (rd.data.getD []) = .error e →
        client.ReadResponseHeader conn Unmarshal fuel c r
          = some (.panicked (.error e), { c with rwc := rd.conn }, r)) ∧
      (∀ response, rd.returnError = none → Unmarshal (rd.data.getD []) = .ok response →
        client.ReadResponseHeader conn Unmarshal fuel c r
          = some (.returned none, { c with rwc := rd.conn, resp := response },
              { r with ServiceMethod := response.ServiceMethod, Seq := response.Seq }))) := by
  refine ⟨?_, ?_, ?_⟩
  · intro out h e
    unfold client.ReadResponseHeader at h
    split at h
    · simp only [Option.some.injEq] at h
      subst h
      simp
    · cases hrd : readData conn fuel c.rwc with
      | none => rw [hrd] at h; simp at h
      | some rd =>
        rw [hrd] at h
        simp only at h
        cases he : rd.returnError with
        | some e1 =>
          rw [he] at h
          simp only at h
          split at h <;> (simp only [Option.some.injEq] at h; subst h; simp)
        | none =>
          rw [he] at h
          simp only at h
          cases hu : Unmarshal (rd.data.getD []) with
          | error e1 => rw [hu] at h; simp only [Option.some.injEq] at h; subst h; simp
          | ok response => rw [hu] at h; simp only [Option.some.injEq] at h; subst h; simp
  · intro hc
    simp [client.ReadResponseHeader, hc]
  · intro hc rd hrd
    refine ⟨?_, ?_, ?_, ?_⟩
    · intro e he hcont
      simp [client.ReadResponseHeader, hc, hrd, he, hcont]
    · intro e he hcont
      simp [client.ReadResponseHeader, hc, hrd, he, hcont]
    · intro e he hu
      simp [client.ReadResponseHeader, hc, hrd, he, hu]
    · intro response he hu
      simp [client.ReadResponseHeader, hc, hrd, he, hu]

/-- C8 (amended), at a stream closed locally and at a stream that ends inside
the header. -/
theorem ReadResponseHeader_outcomes_witness :
    client.ReadResponseHeader simConn sampleUnmarshalResp 3
        ⟨closedStream, zeroResp, false⟩ ⟨"", 0, ""⟩
      = some (.returned none, ⟨⟨[], []⟩, zeroResp, false⟩, ⟨"", 0, ""⟩) ∧
    client.ReadResponseHeader simConn sampleUnmarshalResp 3
        ⟨⟨[.chunk [0, 0]], []⟩, zeroResp, false⟩ ⟨"", 0, ""⟩
      = some (.panicked (.error .EOF), ⟨⟨[], []⟩, zeroResp, false⟩, ⟨"", 0, ""⟩) ∧
    (∀ e : GoError, Outcome.returned none ≠ .returned (some e)) :=
  ⟨((ReadResponseHeader_outcomes simConn sampleUnmarshalResp 3
        ⟨closedStream, zeroResp, false⟩ ⟨"", 0, ""⟩).2.2 rfl
        ⟨none, some (.msg "read tcp 127.0.0.1:4000->127.0.0.1:1234: use of closed network connection"),
          ⟨[], []⟩⟩ (by decide)).1 _ rfl (by decide),
   ((ReadResponseHeader_outcomes simConn sampleUnmarshalResp 3
        ⟨⟨[.chunk [0, 0]], []⟩, zeroResp, false⟩ ⟨"", 0, ""⟩).2.2 rfl
        ⟨none, some .EOF, ⟨[], []⟩⟩ (by decide)).2.1 _ rfl (by decide),
   (ReadResponseHeader_outcomes simConn sampleUnmarshalResp 3
        ⟨closedStream, zeroResp, false⟩ ⟨"", 0, ""⟩).1
      (.returned none, ⟨⟨[], []⟩, zeroResp, false⟩, ⟨"", 0, ""⟩) (by decide)⟩

/-- C9.  A stream that carries exactly the header `00 00 00 00`, in any split
into non-empty chunks, and on which a `Read` into an empty buffer returns
`0, nil`: with fuel for 4 reads per loop, `readData` returns the empty (non-nil)
payload and a nil error, and leaves the stream empty. -/
theorem readData_zero_length_payload (chunks : List (List Byte)) (ws : List (Option GoError))
    (fuel : Nat) (hbytes : chunks.flatten = [0, 0, 0, 0]) (hne : ∀ ch ∈ chunks, ch ≠ [])
    (hfuel : 4 ≤ fuel) :
    readData simConn fuel ⟨chunks.map ReadStep.chunk, ws⟩ = some ⟨some [], none, ⟨[], ws⟩⟩ := by
  have hhead := readLoop_chunks HeadSize [] ws 4 chunks [] HeadSize fuel (by rw [hbytes]; rfl) hne
    (by simp [HeadSize]) (by omega) (by simp [HeadSize]) hfuel
  obtain ⟨k, rfl⟩ : ∃ k, fuel = k + 1 := ⟨fuel - 1, by omega⟩
  rw [List.append_nil] at hhead
  unfold readData
  rw [hhead, hbytes]
  rfl

/-- C9, at the split `00 | 00 00 | 00`. -/
theorem readData_zero_length_payload_witness :
    ([[0], [0, 0], [0]] : List (List Byte)).flatten = [0, 0, 0, 0] ∧
    readData simConn 4 ⟨[.chunk [0], .chunk [0, 0], .chunk [0]], []⟩
      = some ⟨some [], none, ⟨[], []⟩⟩ :=
  ⟨by decide,
   readData_zero_length_payload [[0], [0, 0], [0]] [] 4 (by decide) (by decide) (by decide)⟩

/-- C10.  On any recorded stream, whatever the reads return: when `readData`
returns a nil error, the bytes it received are exactly `4 + N` bytes, `N` being
the big-endian value of the first 4, and the returned data are the `N` bytes
after them, in order.  And a loop whose buffer already holds more than the
wanted number of bytes (it read past the header or past the body) never ends
with `break`, so such a run never returns success. -/
theorem readData_success_is_one_frame {σ : Type} (c : Conn σ) :
    (∀ (fuel : Nat) (s : σ) (r : ReadDataResult (σ × List Event)),
      readData (recording c) fuel (s, []) = some r → r.returnError = none →
      (received r.conn.2).length = 4 + Uint32 ((received r.conn.2).take 4)
        ∧ r.data = some ((received r.conn.2).drop 4)) ∧
    (∀ (total fuel : Nat) (s : σ) (buf : List Byte) (size : Nat) (b : List Byte) (t : σ),
      total < buf.length → readLoop c total fuel s buf size ≠ some (.broke b t)) := by
  constructor
  · intro fuel s r h hnil
    obtain ⟨evs, hlog, hcase⟩ := readData_recording c fuel s [] r h
    simp only [List.nil_append] at hlog
    rcases hcase with ⟨-, -, hd, body, hdata, hrecv, hhd, hbody⟩ | ⟨e, -, -, -, herr, -⟩
    · have htake : (hd ++ body).take 4 = hd := by
        rw [List.take_append_of_le_length (by omega), List.take_of_length_le (by omega)]
      have hdrop : (hd ++ body).drop 4 = body := by
        rw [List.drop_append_of_le_length (by omega), List.drop_of_length_le (by omega)]
        rfl
      rw [hlog, hrecv, htake, hdrop, List.length_append, hhd, hbody]
      exact ⟨rfl, hdata⟩
    · rw [herr] at hnil
      simp at hnil
  · intro total fuel s buf size b t hlt
    exact readLoop_overrun c total fuel s buf size b t hlt

/-- C10, at the frame of the payload `07` delivered in three chunks, and at a
header buffer that already holds 5 bytes. -/
theorem readData_success_is_one_frame_witness :
    ((received [Event.read 4 [0, 0, 0] none, Event.read 1 [1] none,
        Event.read 1 [7] none]).length
        = 4 + Uint32 ((received [Event.read 4 [0, 0, 0] none, Event.read 1 [1] none,
            Event.read 1 [7] none]).take 4)
      ∧ (some [7] : Option (List Byte))
        = some ((received [Event.read 4 [0, 0, 0] none, Event.read 1 [1] none,
            Event.read 1 [7] none]).drop 4)) ∧
    readLoop simConn 4 3 ⟨[], []⟩ [0, 0, 0, 1, 7] 1 ≠ some (.broke [0, 0, 0, 1] ⟨[], []⟩) :=
  ⟨(readData_success_is_one_frame simConn).1 3 oneFrameStream
      ⟨some [7], none, (⟨[], []⟩, [Event.read 4 [0, 0, 0] none, Event.read 1 [1] none,
        Event.read 1 [7] none])⟩ (by decide) rfl,
   (readData_success_is_one_frame simConn).2 4 3 ⟨[], []⟩ [0, 0, 0, 1, 7] 1 [0, 0, 0, 1]
      ⟨[], []⟩ (by decide)⟩

end Rpctest01
